import Mathlib

/-!
# Coze2JianYing website script (`app/static/js/main.js`)

A shallow embedding of the event handlers the page script registers on
`DOMContentLoaded`, and the properties of them that the specification states.

Conventions of the embedding

* A JavaScript string is a Lean `String`; `===` on strings is equality.
* A DOM element is identified by a natural number (its node identity).
* Browser services the script calls (`document.querySelector`, `fetch`,
  `navigator.clipboard.writeText`, `setTimeout`) are not code of the script: their
  results are inputs of the handlers, their invocations are recorded as effects.
  Of `document.querySelector` the selectors made of "#" and name code points are
  described after the Selectors standard (`idSelectorResult`).
* `offsetTop` and `pageYOffset` are integers (CSS pixels); the handlers only compare them.
* Each handler is a pure function from the state it reads to the state and effects
  it leaves behind.  A handler that raises an exception reports it in a `threw` field.
-/

namespace Coze2JianYing

/-! ## Smooth scrolling for navigation links (lines 5-19) -/

/-- A DOM element, by node identity. -/
abbrev Element := Nat

/-- Outcome of `document.querySelector(selector)`: a `SyntaxError` for a string that is
not a valid selector, `null` when nothing matches, or the first matching element. -/
inductive QueryResult where
  | syntaxError
  | null
  | found (element : Element)
deriving DecidableEq, Repr

/-- One call `targetElement.scrollIntoView({ behavior, block })`. -/
structure ScrollRequest where
  target : Element
  behavior : String
  block : String
deriving DecidableEq, Repr

/-- What one run of the click handler of a navigation link did. -/
structure ClickEffects where
  /-- whether `e.preventDefault()` was called -/
  defaultPrevented : Bool
  /-- the `scrollIntoView` calls, in order -/
  scrollRequests : List ScrollRequest
  /-- whether the handler ended by an uncaught exception -/
  threw : Bool
deriving DecidableEq, Repr

/-- The click handler of lines 7-18.  `querySelector` is `document.querySelector` of the
page at the time of the click, `href` is `this.getAttribute('href')`.

    e.preventDefault();
    const targetId = this.getAttribute('href');
    const targetElement = document.querySelector(targetId);
    if (targetElement) { targetElement.scrollIntoView({behavior: 'smooth', block: 'start'}); }
-/
def navLinkClick (querySelector : String → QueryResult) (href : String) : ClickEffects :=
  let defaultPrevented := true
  let targetId := href
  match querySelector targetId with
  | QueryResult.syntaxError =>
      { defaultPrevented := defaultPrevented, scrollRequests := [], threw := true }
  | QueryResult.null =>
      { defaultPrevented := defaultPrevented, scrollRequests := [], threw := false }
  | QueryResult.found targetElement =>
      { defaultPrevented := defaultPrevented,
        scrollRequests := [{ target := targetElement, behavior := "smooth", block := "start" }],
        threw := false }

/-- A page where only the selector "#features" finds an element (node 7), and the
selector "#" is rejected, for the examples. -/
def demoQuery (selector : String) : QueryResult :=
  if selector = "#features" then QueryResult.found 7
  else if selector = "#" then QueryResult.syntaxError
  else QueryResult.null

/-- The elements of a page that carry an `id` attribute, in document order: the node
and the value of the attribute. -/
abbrev Document := List (Element × String)

/-- The first element of the page, in document order, whose `id` is the given string. -/
def firstWithId (doc : Document) (id : String) : Option Element :=
  (doc.find? (fun e => e.2 == id)).map Prod.fst

/-- A CSS name-start code point: an ASCII letter, the underscore, or a code point from
U+0080 on. -/
def isNameStart (c : Char) : Bool :=
  c.isAlpha || c == '_' || decide (128 ≤ c.toNat)

/-- A CSS name code point: a name-start code point, a digit, or the hyphen. -/
def isNameChar (c : Char) : Bool :=
  isNameStart c || c.isDigit || c == '-'

/-- Whether a string of name code points starts a CSS identifier: it begins with a
name-start code point, or with a hyphen followed by a name-start code point or a
second hyphen.  Only then is "#" followed by the string an ID selector. -/
def isIdentifier (name : List Char) : Bool :=
  match name with
  | [] => false
  | c :: rest =>
      isNameStart c ||
        (c == '-' && (match rest with
          | [] => false
          | d :: _ => isNameStart d || d == '-'))

/-- What the Selectors standard prescribes for `document.querySelector("#" + name)`
(page in no-quirks mode) when `name` consists of name code points: the first element
with that id, or `null`, when `name` is an identifier; a `SyntaxError` otherwise. -/
def idSelectorResult (doc : Document) (name : String) : QueryResult :=
  if isIdentifier name.data then
    match firstWithId doc name with
    | some element => QueryResult.found element
    | none => QueryResult.null
  else QueryResult.syntaxError

/-- A lookup that follows the standard on the page `doc` for every selector made of
"#" and name code points.  Selectors of any other shape are left unconstrained. -/
def ConformsOnIds (doc : Document) (querySelector : String → QueryResult) : Prop :=
  ∀ name : String, name.data.all isNameChar = true →
    querySelector ("#" ++ name) = idSelectorResult doc name

/-- One conforming lookup, for the examples: it answers selectors made of "#" and name
code points as the standard prescribes, and finds nothing for any other selector. -/
def idQuery (doc : Document) (selector : String) : QueryResult :=
  match selector.data with
  | '#' :: name =>
      if name.all isNameChar then idSelectorResult doc (String.mk name) else QueryResult.null
  | _ => QueryResult.null

/-- A page with four elements that carry an id, for the examples. -/
def demoDocument : Document :=
  [(3, "intro"), (5, "1abc"), (7, "features"), (9, "features")]

/-! ## Highlight current section in navigation (lines 37, 46-62) -/

/-- A `section` element as the scroll handler reads it: `offsetTop` and
`getAttribute('id')` (`none` is JavaScript `null`: the attribute is absent). -/
structure Section where
  offsetTop : Int
  id : Option String
deriving DecidableEq, Repr

/-- A navigation link: `getAttribute('href')` and the tokens of its `classList`. -/
structure NavLink where
  href : String
  classList : List String
deriving DecidableEq, Repr

/-- The loop of lines 47-54: `current` starts as the empty string and is overwritten
by the `id` attribute of every section with `pageYOffset >= sectionTop - 60`, in
document order. -/
def currentSection (sections : List Section) (pageYOffset : Int) : Option String :=
  sections.foldl
    (fun current sec =>
      let sectionTop := sec.offsetTop
      if pageYOffset ≥ sectionTop - 60 then sec.id else current)
    (some "")

/-- The template literal of line 58, "#" followed by `current`; a `null` is
rendered as the text "null". -/
def hashOf (current : Option String) : String :=
  "#" ++ (match current with
    | some id => id
    | none => "null")

/-- The method `classList.remove(token)`. -/
def classListRemove (classList : List String) (token : String) : List String :=
  classList.filter (fun t => t ≠ token)

/-- The method `classList.add(token)`: a token already in the list is not added again. -/
def classListAdd (classList : List String) (token : String) : List String :=
  if token ∈ classList then classList else classList ++ [token]

/-- The body of `navLinks.forEach` (lines 57-60) for one link. -/
def highlightLink (current : Option String) (link : NavLink) : NavLink :=
  let link := { link with classList := classListRemove link.classList "active" }
  if link.href = hashOf current then
    { link with classList := classListAdd link.classList "active" }
  else link

/-- The scroll handler of lines 46-62: the navigation links after it ran. -/
def onScroll (sections : List Section) (navLinks : List NavLink) (pageYOffset : Int) :
    List NavLink :=
  let current := currentSection sections pageYOffset
  navLinks.map (highlightLink current)

/-- Whether a link carries the class `active`. -/
def isActive (link : NavLink) : Bool := decide ("active" ∈ link.classList)

/-- Whether the test of line 51 holds for a section. -/
def qualifies (pageYOffset : Int) (sec : Section) : Bool :=
  decide (pageYOffset ≥ sec.offsetTop - 60)

/-- A page with three sections, for the examples. -/
def demoSections : List Section :=
  [⟨0, some "intro"⟩, ⟨500, some "features"⟩, ⟨1200, some "api"⟩]

/-- The navigation links of that page, two of them marked active beforehand. -/
def demoLinks : List NavLink :=
  [⟨"#intro", ["active"]⟩, ⟨"#features", []⟩, ⟨"#api", ["nav", "active"]⟩]

/-! ## Copy buttons of code blocks (lines 76-107) -/

/-- The label a copy button is created with (line 80) and reverts to (line 103). -/
def copyLabel : String := "复制"

/-- The label after a successful copy (line 101). -/
def copiedLabel : String := "已复制!"

/-- The delay of the `setTimeout` of lines 102-104, in milliseconds. -/
def revertDelay : Nat := 2000

/-- A copy button: its `textContent` and the due times (milliseconds on the page
clock) of the revert callbacks scheduled by `setTimeout` and not yet run.  Timers
are idealised: a callback scheduled at time `t` with delay `d` is due at `t + d`. -/
structure CopyButton where
  textContent : String
  timers : List Nat
deriving DecidableEq, Repr

/-- The button as lines 78-80 create it. -/
def CopyButton.create : CopyButton := { textContent := copyLabel, timers := [] }

/-- The click handler up to the asynchronous call (lines 99-100): the argument of
`navigator.clipboard.writeText`, for a code block with the given `textContent`. -/
def copyClickText (blockTextContent : String) : String :=
  let text := blockTextContent
  text

/-- The page clock reaches `now`: every revert callback due by then runs
(line 103) and leaves the timer list. -/
def CopyButton.advance (now : Nat) (button : CopyButton) : CopyButton :=
  if button.timers.any (fun due => decide (due ≤ now)) then
    { textContent := copyLabel, timers := button.timers.filter (fun due => decide (now < due)) }
  else button

/-- The `then` callback of lines 100-105, run at time `now` when the clipboard write
succeeds: callbacks already due run first, then the label is set and a revert is
scheduled `revertDelay` later. -/
def CopyButton.copied (now : Nat) (button : CopyButton) : CopyButton :=
  let button := button.advance now
  { textContent := copiedLabel, timers := button.timers ++ [now + revertDelay] }

/-- The button after the clipboard writes that succeeded at the given times, in order. -/
def buttonAfter (successes : List Nat) : CopyButton :=
  successes.foldl (fun button t => button.copied t) CopyButton.create

/-- The label of the button when the clock reads `now`, the clipboard writes of the
clicks having succeeded at the times `successes` (in order): those up to `now` have
run their callback, and every revert due by `now` has run. -/
def labelAt (successes : List Nat) (now : Nat) : String :=
  ((buttonAfter (successes.filter (fun t => decide (t ≤ now)))).advance now).textContent

/-! ## API health check (lines 139-177) -/

/-- How the single `fetch('/api/health')` settles: the promise rejects (network
failure), or it resolves with a response of some HTTP status. -/
inductive FetchOutcome where
  | rejected
  | response (status : Nat)
deriving DecidableEq, Repr

/-- The property `Response.ok`: the status is in the range 200-299. -/
def responseOk (status : Nat) : Bool := decide (200 ≤ status ∧ status ≤ 299)

/-- The log line of line 149. -/
def healthyMessage : String := "API 服务正常运行"

/-- The log line of line 175. -/
def failureMessage : String := "API 服务未启动或不可访问"

/-- The text of the status indicator (line 164). -/
def toastText : String := "🟢 API 服务运行中"

/-- What one run of `checkAPIStatus` did. -/
structure HealthEffects where
  /-- the `console.log` lines, in order -/
  consoleLog : List String
  /-- the `textContent` of every status indicator appended to `document.body` -/
  toasts : List String
  /-- the delays of the timers scheduled -/
  timeouts : List Nat
  /-- whether the promise returned by the async function rejects -/
  threw : Bool
deriving DecidableEq, Repr

/-- The function `checkAPIStatus` of lines 139-177. -/
def checkAPIStatus (outcome : FetchOutcome) : HealthEffects :=
  match outcome with
  | FetchOutcome.response status =>
      if responseOk status then
        { consoleLog := [healthyMessage], toasts := [toastText], timeouts := [3000],
          threw := false }
      else
        { consoleLog := [], toasts := [], timeouts := [], threw := false }
  | FetchOutcome.rejected =>
      { consoleLog := [failureMessage], toasts := [], timeouts := [], threw := false }

/-! ## Easter egg: Konami code (lines 199-237) -/

/-- The target sequence of line 201. -/
def konamiSequence : List String :=
  ["ArrowUp", "ArrowUp", "ArrowDown", "ArrowDown", "ArrowLeft", "ArrowRight",
   "ArrowLeft", "ArrowRight", "b", "a"]

/-- The call `slice(-10)` on an array: its last ten entries. -/
def sliceLast10 (xs : List String) : List String := xs.drop (xs.length - 10)

/-- The call `join('')` on an array of strings: their concatenation. -/
def join (xs : List String) : String := String.join xs

/-- What one run of the Konami key-down handler left behind. -/
structure KeyDownResult where
  /-- the variable `konamiCode` after the handler -/
  konamiCode : List String
  /-- whether the easter-egg message was appended to `document.body` -/
  messageShown : Bool
  /-- whether the handler ended by an uncaught exception -/
  threw : Bool
deriving DecidableEq, Repr

/-- The key-down handler of lines 203-237.  `heroPresent` tells whether
`document.querySelector('.hero')` finds an element: on `null` the assignment to
`hero.style.background` (line 210) raises a `TypeError`, and nothing after it runs. -/
def onKeyDown (heroPresent : Bool) (konamiCode : List String) (key : String) :
    KeyDownResult :=
  let konamiCode := konamiCode ++ [key]
  let konamiCode := sliceLast10 konamiCode
  if join konamiCode = join konamiSequence then
    if heroPresent then
      { konamiCode := [], messageShown := true, threw := false }
    else
      { konamiCode := konamiCode, messageShown := false, threw := true }
  else
    { konamiCode := konamiCode, messageShown := false, threw := false }

/-- The variable `konamiCode` after a sequence of key-down events. -/
def bufferAfter (heroPresent : Bool) (konamiCode : List String) (keys : List String) :
    List String :=
  keys.foldl (fun code key => (onKeyDown heroPresent code key).konamiCode) konamiCode

/-- For each key-down of a sequence, in order, whether it showed the message. -/
def firings (heroPresent : Bool) (konamiCode : List String) : List String → List Bool
  | [] => []
  | key :: keys =>
      (onKeyDown heroPresent konamiCode key).messageShown ::
        firings heroPresent (onKeyDown heroPresent konamiCode key).konamiCode keys

/-- The results of the handler for each key-down of a sequence, in order, every run
starting from the buffer the run before it left. -/
def keyDowns (heroPresent : Bool) (konamiCode : List String) :
    List String → List KeyDownResult
  | [] => []
  | key :: keys =>
      onKeyDown heroPresent konamiCode key ::
        keyDowns heroPresent (onKeyDown heroPresent konamiCode key).konamiCode keys

/-- Keys that are not empty and do not end in the letter the target ends in. -/
def quietKeys (keys : List String) : Prop :=
  ∀ key ∈ keys, key.data ≠ [] ∧ key.data.getLast? ≠ some 'a'

/-- The four arrow keys of the target sequence. -/
def arrowKeys : List String := ["ArrowUp", "ArrowDown", "ArrowLeft", "ArrowRight"]

/-- A key value that cannot be mistaken inside the concatenated target: a single
character, one of the four arrow key names, or a string that occurs nowhere in
the concatenation of the target sequence. -/
def plainKey (key : String) : Prop :=
  key.length = 1 ∨ key ∈ arrowKeys ∨ ¬ (key.data <:+: (join konamiSequence).data)

/-- Every way to write the characters `s` as the concatenation of at most `n` keys,
each a single character or an arrow key name. -/
def splittings : Nat → List Char → List (List String)
  | _, [] => [[]]
  | 0, _ :: _ => []
  | n + 1, c :: cs =>
      (splittings n cs).map (fun rest => String.mk [c] :: rest) ++
      arrowKeys.flatMap (fun a =>
        if a.data.isPrefixOf (c :: cs) then
          (splittings n ((c :: cs).drop a.data.length)).map (fun rest => a :: rest)
        else [])


/-! ## Lemmas on the Konami buffer -/

theorem sliceLast10_length_le (xs : List String) : (sliceLast10 xs).length ≤ 10 := by
  unfold sliceLast10
  rw [List.length_drop]
  omega

theorem sliceLast10_of_length_le (xs : List String) (h : xs.length ≤ 10) :
    sliceLast10 xs = xs := by
  unfold sliceLast10
  have : xs.length - 10 = 0 := by omega
  rw [this, List.drop_zero]

theorem sliceLast10_append_long (xs ys : List String) (h : 10 ≤ ys.length) :
    sliceLast10 (xs ++ ys) = sliceLast10 ys := by
  unfold sliceLast10
  have : (xs ++ ys).length - 10 = xs.length + (ys.length - 10) := by
    rw [List.length_append]; omega
  rw [this, List.drop_append]

theorem sliceLast10_slide (xs ys : List String) :
    sliceLast10 (sliceLast10 xs ++ ys) = sliceLast10 (xs ++ ys) := by
  by_cases h : xs.length ≤ 10
  · rw [sliceLast10_of_length_le xs h]
  · have hlen : (sliceLast10 xs).length = 10 := by
      unfold sliceLast10
      rw [List.length_drop]
      omega
    have hsplit : xs ++ ys = xs.take (xs.length - 10) ++ (sliceLast10 xs ++ ys) := by
      unfold sliceLast10
      rw [← List.append_assoc, List.take_append_drop]
    rw [hsplit, sliceLast10_append_long (xs.take (xs.length - 10)) (sliceLast10 xs ++ ys)]
    rw [List.length_append]
    omega

theorem sliceLast10_append_ten (xs ys : List String) (h : ys.length = 10) :
    sliceLast10 (xs ++ ys) = ys := by
  rw [sliceLast10_append_long xs ys (by omega), sliceLast10_of_length_le ys (by omega)]

theorem sliceLast10_snoc (xs : List String) (key : String) :
    ∃ front, sliceLast10 (xs ++ [key]) = front ++ [key] := by
  refine ⟨xs.drop ((xs ++ [key]).length - 10), ?_⟩
  unfold sliceLast10
  rw [List.drop_append_of_le_length]
  rw [List.length_append, List.length_singleton]
  omega

theorem join_data (xs : List String) : (join xs).data = (xs.map String.data).flatten := by
  unfold join
  exact String.data_join xs

theorem join_snoc_data (xs : List String) (key : String) :
    (join (xs ++ [key])).data = (join xs).data ++ key.data := by
  simp [join_data]

theorem join_slide_ne (buf : List String) (key : String)
    (hne : key.data ≠ []) (hlast : key.data.getLast? ≠ some 'a') :
    join (sliceLast10 (buf ++ [key])) ≠ join konamiSequence := by
  intro h
  obtain ⟨front, hfront⟩ := sliceLast10_snoc buf key
  have hdata := congrArg String.data h
  rw [hfront, join_snoc_data] at hdata
  have hl := congrArg List.getLast? hdata
  rw [List.getLast?_append_of_ne_nil _ hne] at hl
  have htarget : (join konamiSequence).data.getLast? = some 'a' := by decide
  rw [htarget] at hl
  exact hlast hl

theorem onKeyDown_of_ne (heroPresent : Bool) (buf : List String) (key : String)
    (h : join (sliceLast10 (buf ++ [key])) ≠ join konamiSequence) :
    onKeyDown heroPresent buf key =
      { konamiCode := sliceLast10 (buf ++ [key]), messageShown := false, threw := false } := by
  simp [onKeyDown, h]

theorem onKeyDown_of_eq (buf : List String) (key : String)
    (h : join (sliceLast10 (buf ++ [key])) = join konamiSequence) :
    onKeyDown true buf key = { konamiCode := [], messageShown := true, threw := false } := by
  simp [onKeyDown, h]

theorem onKeyDown_length_le (heroPresent : Bool) (buf : List String) (key : String) :
    (onKeyDown heroPresent buf key).konamiCode.length ≤ 10 := by
  have := sliceLast10_length_le (buf ++ [key])
  unfold onKeyDown
  simp only
  split_ifs <;> simp <;> exact this

theorem messageShown_iff (heroPresent : Bool) (buf : List String) (key : String) :
    (onKeyDown heroPresent buf key).messageShown = true ↔
      (heroPresent = true ∧ join (sliceLast10 (buf ++ [key])) = join konamiSequence) := by
  unfold onKeyDown
  simp only
  split_ifs <;> simp_all

theorem bufferAfter_length_le (heroPresent : Bool) (keys : List String) :
    ∀ buf : List String, buf.length ≤ 10 → (bufferAfter heroPresent buf keys).length ≤ 10 := by
  induction keys with
  | nil => intro buf h; simpa [bufferAfter] using h
  | cons key keys ih =>
      intro buf _
      have := ih (onKeyDown heroPresent buf key).konamiCode
        (onKeyDown_length_le heroPresent buf key)
      simpa [bufferAfter] using this

theorem bufferAfter_quiet (heroPresent : Bool) (keys : List String) :
    ∀ (buf : List String) (key : String), quietKeys (key :: keys) →
      bufferAfter heroPresent buf (key :: keys) = sliceLast10 (buf ++ key :: keys) := by
  induction keys with
  | nil =>
      intro buf key hq
      obtain ⟨hne, hlast⟩ := hq key (List.mem_cons_self _ _)
      simp [bufferAfter, onKeyDown_of_ne heroPresent buf key (join_slide_ne buf key hne hlast)]
  | cons key2 keys ih =>
      intro buf key hq
      obtain ⟨hne, hlast⟩ := hq key (List.mem_cons_self _ _)
      have hq2 : quietKeys (key2 :: keys) := fun k hk => hq k (List.mem_cons_of_mem _ hk)
      have hstep : bufferAfter heroPresent buf (key :: key2 :: keys) =
          bufferAfter heroPresent (sliceLast10 (buf ++ [key])) (key2 :: keys) := by
        simp [bufferAfter, onKeyDown_of_ne heroPresent buf key (join_slide_ne buf key hne hlast)]
      rw [hstep, ih _ _ hq2, sliceLast10_slide]
      simp

theorem firings_quiet (heroPresent : Bool) (keys : List String) :
    ∀ buf : List String, quietKeys keys →
      firings heroPresent buf keys = List.replicate keys.length false := by
  induction keys with
  | nil => intro buf _; simp [firings]
  | cons key keys ih =>
      intro buf hq
      obtain ⟨hne, hlast⟩ := hq key (List.mem_cons_self _ _)
      have hq2 : quietKeys keys := fun k hk => hq k (List.mem_cons_of_mem _ hk)
      simp [firings, onKeyDown_of_ne heroPresent buf key (join_slide_ne buf key hne hlast),
        ih _ hq2, List.replicate_succ]

theorem firings_append (heroPresent : Bool) (keys more : List String) :
    ∀ buf : List String, firings heroPresent buf (keys ++ more) =
      firings heroPresent buf keys ++ firings heroPresent (bufferAfter heroPresent buf keys) more := by
  induction keys with
  | nil => intro buf; simp [firings, bufferAfter]
  | cons key keys ih => intro buf; simp [firings, bufferAfter, ih]

theorem bufferAfter_append (heroPresent : Bool) (buf keys more : List String) :
    bufferAfter heroPresent buf (keys ++ more) =
      bufferAfter heroPresent (bufferAfter heroPresent buf keys) more := by
  simp [bufferAfter, List.foldl_append]

theorem quiet_first_nine : quietKeys (konamiSequence.take 9) := by
  unfold quietKeys
  decide

theorem konami_from_any_buffer (buf : List String) :
    firings true buf konamiSequence =
      [false, false, false, false, false, false, false, false, false, true] ∧
    bufferAfter true buf konamiSequence = [] := by
  have hsplit : konamiSequence = konamiSequence.take 9 ++ ["a"] := by decide
  have hnine : bufferAfter true buf (konamiSequence.take 9) =
      sliceLast10 (buf ++ konamiSequence.take 9) :=
    bufferAfter_quiet true _ buf _ quiet_first_nine
  have hmatch : join (sliceLast10 (sliceLast10 (buf ++ konamiSequence.take 9) ++ ["a"])) =
      join konamiSequence := by
    rw [sliceLast10_slide, List.append_assoc, ← hsplit,
      sliceLast10_append_ten buf konamiSequence (by decide)]
  constructor
  · have hlen : (konamiSequence.take 9).length = 9 := by decide
    rw [hsplit, firings_append, firings_quiet true _ buf quiet_first_nine, hnine, hlen]
    simp [firings, onKeyDown_of_eq _ _ hmatch, List.replicate]
  · rw [hsplit, bufferAfter_append, hnine]
    simp [bufferAfter, onKeyDown_of_eq _ _ hmatch]

theorem data_infix_join (key : String) (buf : List String) (h : key ∈ buf) :
    key.data <:+: (join buf).data := by
  obtain ⟨front, back, rfl⟩ := List.append_of_mem h
  refine ⟨(join front).data, (join back).data, ?_⟩
  simp [join_data]

theorem splittings_nil (n : Nat) : splittings n [] = [[]] := by
  cases n <;> rfl

theorem mem_splittings (buf : List String) :
    ∀ (n : Nat) (s : List Char), buf.length ≤ n →
      (∀ key ∈ buf, key.length = 1 ∨ key ∈ arrowKeys) →
      (join buf).data = s → buf ∈ splittings n s := by
  induction buf with
  | nil =>
      intro n s _ _ hs
      have : s = [] := by simpa [join_data] using hs.symm
      subst this
      simp [splittings_nil]
  | cons key rest ih =>
      intro n s hlen hkeys hs
      obtain ⟨m, rfl⟩ : ∃ m, n = m + 1 := ⟨n - 1, by simp at hlen; omega⟩
      have hrest := ih m (join rest).data (by simp at hlen; omega)
        (fun k hk => hkeys k (List.mem_cons_of_mem _ hk)) rfl
      have hs2 : s = key.data ++ (join rest).data := by
        rw [← hs]; simp [join_data]
      have hne : key.data ≠ [] := by
        rcases hkeys key (List.mem_cons_self _ _) with h1 | h4
        · intro hnil
          rw [String.length, hnil] at h1
          simp at h1
        · intro hnil
          have hall : ∀ a ∈ arrowKeys, a.data ≠ [] := by decide
          exact hall key h4 hnil
      obtain ⟨c, cs, hcs⟩ : ∃ c cs, s = c :: cs := by
        rw [hs2]
        cases hd : key.data with
        | nil => exact absurd hd hne
        | cons c tl => exact ⟨c, tl ++ (join rest).data, rfl⟩
      rw [hcs]
      unfold splittings
      rw [List.mem_append]
      rcases hkeys key (List.mem_cons_self _ _) with h1 | h4
      · left
        obtain ⟨d, hd⟩ : ∃ d, key.data = [d] := by
          rw [String.length] at h1
          exact List.length_eq_one.mp h1
        have hkey : key = String.mk [d] := by
          cases key
          simp_all
        rw [hs2, hd] at hcs
        simp only [List.singleton_append, List.cons.injEq] at hcs
        obtain ⟨hdc, hcs⟩ := hcs
        rw [List.mem_map]
        exact ⟨rest, by rw [← hcs]; exact hrest, by rw [hkey, hdc]⟩
      · right
        rw [List.mem_flatMap]
        refine ⟨key, h4, ?_⟩
        have hpre : key.data.isPrefixOf (c :: cs) = true := by
          rw [← hcs, hs2]
          rw [ List.isPrefixOf_iff_prefix]
          exact List.prefix_append _ _
        rw [if_pos hpre, List.mem_map]
        refine ⟨rest, ?_, rfl⟩
        rw [← hcs, hs2, List.drop_left]
        exact hrest

theorem buffer_eq_of_join_eq (buf : List String) (hlen : buf.length ≤ 10)
    (hkeys : ∀ key ∈ buf, plainKey key) (hjoin : join buf = join konamiSequence) :
    buf = konamiSequence := by
  have hkeys2 : ∀ key ∈ buf, key.length = 1 ∨ key ∈ arrowKeys := by
    intro key hkey
    rcases hkeys key hkey with h | h | h
    · exact Or.inl h
    · exact Or.inr h
    · exact absurd (hjoin ▸ data_infix_join key buf hkey) h
  have hmem := mem_splittings buf 10 (join konamiSequence).data hlen hkeys2
    (congrArg String.data hjoin)
  have hall : splittings 10 (join konamiSequence).data = [konamiSequence] := by decide
  rw [hall] at hmem
  simpa using hmem

/-! ## Lemmas on the scroll handler -/

theorem foldl_current (pageYOffset : Int) (sections : List Section) :
    ∀ init : Option String,
      sections.foldl
        (fun current sec =>
          let sectionTop := sec.offsetTop
          if pageYOffset ≥ sectionTop - 60 then sec.id else current) init =
      match (sections.filter (qualifies pageYOffset)).getLast? with
      | some last => last.id
      | none => init := by
  induction sections with
  | nil => intro init; simp
  | cons sec rest ih =>
      intro init
      rw [List.foldl_cons, ih]
      by_cases hq : pageYOffset ≥ sec.offsetTop - 60
      · have hq2 : qualifies pageYOffset sec = true := by simp [qualifies, hq]
        rw [List.filter_cons_of_pos hq2]
        cases hrest : List.filter (qualifies pageYOffset) rest with
        | nil => simp [hq]
        | cons a as =>
            obtain ⟨l, hl⟩ : ∃ l, (a :: as).getLast? = some l :=
              ⟨_, List.getLast?_eq_getLast _ (List.cons_ne_nil a as)⟩
            simp [List.getLast?_cons_cons, hl]
      · have hq2 : ¬ (qualifies pageYOffset sec = true) := by simp [qualifies, hq]
        rw [List.filter_cons_of_neg hq2]
        simp [hq]

theorem currentSection_eq (sections : List Section) (pageYOffset : Int) :
    currentSection sections pageYOffset =
      match (sections.filter (qualifies pageYOffset)).getLast? with
      | some last => last.id
      | none => some "" := by
  unfold currentSection
  exact foldl_current pageYOffset sections (some "")

theorem highlightLink_href (current : Option String) (link : NavLink) :
    (highlightLink current link).href = link.href := by
  unfold highlightLink
  simp only
  split_ifs <;> rfl

theorem highlightLink_active (current : Option String) (link : NavLink) :
    "active" ∈ (highlightLink current link).classList ↔ link.href = hashOf current := by
  unfold highlightLink
  simp only
  split_ifs with h
  · simp [classListAdd, h]
    split_ifs with h2
    · exact h2
    · simp
  · simp [classListRemove, h]

theorem onScroll_forall₂ (sections : List Section) (navLinks : List NavLink)
    (pageYOffset : Int) :
    List.Forall₂
      (fun before after => after.href = before.href ∧
        ("active" ∈ after.classList ↔
          before.href = hashOf (currentSection sections pageYOffset)))
      navLinks (onScroll sections navLinks pageYOffset) := by
  unfold onScroll
  simp only
  induction navLinks with
  | nil => simp
  | cons link rest ih =>
      rw [List.map_cons]
      exact List.Forall₂.cons ⟨highlightLink_href _ _, highlightLink_active _ _⟩ ih

theorem active_count_le_one (h : String) (navLinks : List NavLink)
    (hnodup : (navLinks.map NavLink.href).Nodup) :
    (navLinks.filter (fun link => decide (link.href = h))).length ≤ 1 := by
  induction navLinks with
  | nil => simp
  | cons link rest ih =>
      rw [List.map_cons, List.nodup_cons] at hnodup
      by_cases hl : link.href = h
      · have hrest : rest.filter (fun link => decide (link.href = h)) = [] := by
          rw [List.filter_eq_nil_iff]
          intro other hother hdec
          have : other.href = h := by simpa using hdec
          exact hnodup.1 (List.mem_map.mpr ⟨other, hother, by rw [this, hl]⟩)
        simp [List.filter_cons, hl, hrest]
      · simpa [List.filter_cons, hl] using ih hnodup.2

theorem filter_isActive_onScroll (sections : List Section) (navLinks : List NavLink)
    (pageYOffset : Int) :
    ((onScroll sections navLinks pageYOffset).filter isActive).length =
      (navLinks.filter
        (fun link => decide (link.href = hashOf (currentSection sections pageYOffset)))).length := by
  unfold onScroll
  simp only
  induction navLinks with
  | nil => simp
  | cons link rest ih =>
      have hact := highlightLink_active (currentSection sections pageYOffset) link
      by_cases hl : link.href = hashOf (currentSection sections pageYOffset)
      · have : isActive (highlightLink (currentSection sections pageYOffset) link) = true := by
          simp [isActive, hact, hl]
        simp [List.filter_cons, this, hl, ih]
      · have : isActive (highlightLink (currentSection sections pageYOffset) link) = false := by
          simp [isActive, hact, hl]
        simp [List.filter_cons, this, hl, ih]

/-! ## Lemmas on the copy button -/

theorem advance_timers (now : Nat) (button : CopyButton) :
    (button.advance now).timers = button.timers.filter (fun due => decide (now < due)) := by
  unfold CopyButton.advance
  split_ifs with h
  · rfl
  · symm
    rw [List.filter_eq_self]
    intro due hdue
    have hnot : ¬ due ≤ now :=
      fun hle => h (List.any_eq_true.mpr ⟨due, hdue, decide_eq_true hle⟩)
    simp
    omega

theorem buttonAfter_snoc (successes : List Nat) (t : Nat) :
    buttonAfter (successes ++ [t]) = (buttonAfter successes).copied t := by
  simp [buttonAfter, List.foldl_append]

theorem copied_timers (now : Nat) (button : CopyButton) :
    (button.copied now).timers =
      button.timers.filter (fun due => decide (now < due)) ++ [now + revertDelay] := by
  unfold CopyButton.copied
  simp only [advance_timers]

theorem buttonAfter_label (successes : List Nat) (h : successes ≠ []) :
    (buttonAfter successes).textContent = copiedLabel := by
  obtain ⟨front, t, rfl⟩ : ∃ front t, successes = front ++ [t] :=
    ⟨successes.dropLast, successes.getLast h, (List.dropLast_append_getLast h).symm⟩
  rw [buttonAfter_snoc]
  rfl

theorem buttonAfter_timers_fresh (successes : List Nat) :
    successes.Pairwise (fun a b => a ≤ b) →
    ∀ due ∈ (buttonAfter successes).timers,
      (∃ e ∈ successes, due = e + revertDelay) ∧ ∀ e ∈ successes, e < due := by
  induction successes using List.reverseRecOn with
  | nil => intro _ due hdue; simp [buttonAfter, CopyButton.create] at hdue
  | append_singleton front t ih =>
      intro hsorted due hdue
      rw [List.pairwise_append] at hsorted
      obtain ⟨hfront, _, hle⟩ := hsorted
      rw [buttonAfter_snoc, copied_timers, List.mem_append] at hdue
      rcases hdue with hold | hnew
      · rw [List.mem_filter] at hold
        obtain ⟨hmem, hlt⟩ := hold
        have hlt : t < due := by simpa using hlt
        obtain ⟨⟨e, he, hdef⟩, hall⟩ := ih hfront due hmem
        refine ⟨⟨e, List.mem_append_left _ he, hdef⟩, ?_⟩
        intro e2 he2
        rcases List.mem_append.mp he2 with h | h
        · exact hall e2 h
        · simp at h; omega
      · simp at hnew
        subst hnew
        refine ⟨⟨t, by simp, rfl⟩, ?_⟩
        intro e2 he2
        have hpos : 0 < revertDelay := by decide
        rcases List.mem_append.mp he2 with h | h
        · have := hle e2 h t (by simp); omega
        · simp at h; omega

theorem buttonAfter_timers_pending (successes : List Nat) :
    ∀ e ∈ successes, (∀ e2 ∈ successes, e2 < e + revertDelay) →
      e + revertDelay ∈ (buttonAfter successes).timers := by
  induction successes using List.reverseRecOn with
  | nil => intro e he; simp at he
  | append_singleton front t ih =>
      intro e he hall
      rw [buttonAfter_snoc, copied_timers, List.mem_append]
      rcases List.mem_append.mp he with h | h
      · left
        rw [List.mem_filter]
        refine ⟨ih e h (fun e2 he2 => hall e2 (List.mem_append_left _ he2)), ?_⟩
        have := hall t (by simp)
        simpa using this
      · right
        simp at h
        simp [h]

theorem labelAt_copied (successes : List Nat) (t now : Nat)
    (hsorted : successes.Pairwise (fun a b => a ≤ b)) (ht : t ∈ successes)
    (hquiet : ∀ e ∈ successes, e < t → e + revertDelay ≤ t)
    (h1 : t ≤ now) (h2 : now < t + revertDelay) :
    labelAt successes now = copiedLabel := by
  have hmem : t ∈ successes.filter (fun t => decide (t ≤ now)) := by
    rw [List.mem_filter]; exact ⟨ht, by simpa using h1⟩
  have hs : (successes.filter (fun t => decide (t ≤ now))).Pairwise (fun a b => a ≤ b) :=
    hsorted.filter _
  have hfresh := buttonAfter_timers_fresh _ hs
  have hnone : ¬ ((buttonAfter (successes.filter (fun t => decide (t ≤ now)))).timers.any
      (fun due => decide (due ≤ now)) = true) := by
    intro hany
    obtain ⟨due, hdue, hle⟩ := List.any_eq_true.mp hany
    have hle : due ≤ now := by simpa using hle
    obtain ⟨⟨e, he, hdef⟩, hall⟩ := hfresh due hdue
    have hte := hall t hmem
    have he2 : e ∈ successes := (List.mem_filter.mp he).1
    by_cases hlt : e < t
    · have := hquiet e he2 hlt; omega
    · omega
  unfold labelAt CopyButton.advance
  rw [if_neg hnone]
  exact buttonAfter_label _ (List.ne_nil_of_mem hmem)

theorem labelAt_reverted (successes : List Nat) (t : Nat) (ht : t ∈ successes)
    (hfree : t + revertDelay ∉ successes) :
    labelAt successes (t + revertDelay) = copyLabel := by
  have hmem : t ∈ successes.filter (fun e => decide (e ≤ t + revertDelay)) := by
    rw [List.mem_filter]; exact ⟨ht, by simp⟩
  have hpend := buttonAfter_timers_pending _ t hmem (by
    intro e2 he2
    rw [List.mem_filter] at he2
    obtain ⟨hin, hle⟩ := he2
    have hle : e2 ≤ t + revertDelay := by simpa using hle
    have hne : e2 ≠ t + revertDelay := fun h => hfree (h ▸ hin)
    omega)
  have hany : (buttonAfter (successes.filter (fun e => decide (e ≤ t + revertDelay)))).timers.any
      (fun due => decide (due ≤ t + revertDelay)) = true :=
    List.any_eq_true.mpr ⟨_, hpend, by simp⟩
  unfold labelAt CopyButton.advance
  rw [if_pos hany]

theorem currentSection_of_last (sections : List Section) (pageYOffset : Int) (last : Section)
    (hlast : (sections.filter (qualifies pageYOffset)).getLast? = some last) :
    currentSection sections pageYOffset = last.id := by
  rw [currentSection_eq, hlast]

theorem currentSection_of_none (sections : List Section) (pageYOffset : Int)
    (hnone : ∀ sec ∈ sections, qualifies pageYOffset sec = false) :
    currentSection sections pageYOffset = some "" := by
  have : sections.filter (qualifies pageYOffset) = [] := by
    rw [List.filter_eq_nil_iff]
    intro sec hsec
    simp [hnone sec hsec]
  rw [currentSection_eq, this]
  rfl

theorem hashOf_some (id : String) : hashOf (some id) = "#" ++ id := rfl

theorem hashOf_empty : hashOf (some "") = "#" := by decide

theorem keyDowns_messageShown (heroPresent : Bool) (keys : List String) :
    ∀ buf : List String,
      (keyDowns heroPresent buf keys).map KeyDownResult.messageShown =
        firings heroPresent buf keys := by
  induction keys with
  | nil => intro buf; rfl
  | cons key keys ih => intro buf; simp [keyDowns, firings, ih]

theorem keyDowns_last (heroPresent : Bool) (keys : List String) :
    ∀ (buf : List String) (key : String),
      ((keyDowns heroPresent buf (key :: keys)).getLast?).map KeyDownResult.konamiCode =
        some (bufferAfter heroPresent buf (key :: keys)) := by
  induction keys with
  | nil => intro buf key; simp [keyDowns, bufferAfter]
  | cons key2 keys ih =>
      intro buf key
      have h := ih (onKeyDown heroPresent buf key).konamiCode key2
      have hcons : keyDowns heroPresent buf (key :: key2 :: keys) =
          onKeyDown heroPresent buf key ::
            keyDowns heroPresent (onKeyDown heroPresent buf key).konamiCode (key2 :: keys) := rfl
      have hlast : ∀ (r : KeyDownResult) (rs : List KeyDownResult), rs ≠ [] →
          (r :: rs).getLast? = rs.getLast? := by
        intro r rs hrs
        cases rs with
        | nil => exact absurd rfl hrs
        | cons r2 rs2 => exact List.getLast?_cons_cons
      have hne : keyDowns heroPresent (onKeyDown heroPresent buf key).konamiCode (key2 :: keys)
          ≠ [] := by simp [keyDowns]
      rw [hcons, hlast _ _ hne, h]
      simp [bufferAfter]

theorem idQuery_conforms (doc : Document) : ConformsOnIds doc (idQuery doc) := by
  intro name hname
  have hdata : ("#" ++ name).data = '#' :: name.data := rfl
  unfold idQuery
  rw [hdata]
  simp only [hname, if_true]

theorem labelAt_at_success (successes : List Nat) (t : Nat)
    (hsorted : successes.Pairwise (fun a b => a ≤ b)) (ht : t ∈ successes) :
    labelAt successes t = copiedLabel := by
  have hmem : t ∈ successes.filter (fun e => decide (e ≤ t)) := by
    rw [List.mem_filter]; exact ⟨ht, by simp⟩
  have hs : (successes.filter (fun e => decide (e ≤ t))).Pairwise (fun a b => a ≤ b) :=
    hsorted.filter _
  have hfresh := buttonAfter_timers_fresh _ hs
  have hnone : ¬ ((buttonAfter (successes.filter (fun e => decide (e ≤ t)))).timers.any
      (fun due => decide (due ≤ t)) = true) := by
    intro hany
    obtain ⟨due, hdue, hle⟩ := List.any_eq_true.mp hany
    have hle : due ≤ t := by simpa using hle
    have hlt := (hfresh due hdue).2 t hmem
    omega
  unfold labelAt CopyButton.advance
  rw [if_neg hnone]
  exact buttonAfter_label _ (List.ne_nil_of_mem hmem)

/-- On a page without a `.hero` element the tenth key of the target sequence makes the
handler throw at line 210: no message is shown and the buffer is not reset. -/
theorem onKeyDown_without_hero :
    onKeyDown false (konamiSequence.take 9) "a" =
      { konamiCode := konamiSequence, messageShown := false, threw := true } := by
  decide

/-! ## The claims -/

/-- C1. Starting from the empty buffer, after every finite sequence of key-down
events with arbitrary key strings, the Konami buffer `konamiCode` holds at most ten
entries (whether or not the page has a `.hero` element). -/
theorem konami_buffer_at_most_ten (heroPresent : Bool) (keys : List String) :
    (bufferAfter heroPresent [] keys).length ≤ 10 :=
  bufferAfter_length_le heroPresent keys [] (by simp)

/-- C2, as stated, fails: on a page without a `.hero` element, pressing the ten keys
of the target sequence from the empty buffer shows the message on no key-down; the
tenth run of the handler throws at line 210 and leaves the ten keys in the buffer. -/
theorem konami_sequence_without_hero :
    (keyDowns false [] konamiSequence).map KeyDownResult.messageShown =
      [false, false, false, false, false, false, false, false, false, false] ∧
    ((keyDowns false [] konamiSequence).getLast?).map KeyDownResult.threw = some true ∧
    ((keyDowns false [] konamiSequence).getLast?).map KeyDownResult.konamiCode =
      some konamiSequence := by
  decide

/-- C2, amended. On a page that has a `.hero` element, from every buffer state
(reachable from the empty one or not), pressing the ten keys of the target sequence in
order shows the easter-egg message on the tenth key-down and on none of the first nine,
and the buffer is empty immediately after the tenth. -/
theorem konami_sequence_fires_on_tenth (heroPresent : Bool) (konamiCode : List String)
    (hhero : heroPresent = true) :
    (keyDowns heroPresent konamiCode konamiSequence).map KeyDownResult.messageShown =
      [false, false, false, false, false, false, false, false, false, true] ∧
    ((keyDowns heroPresent konamiCode konamiSequence).getLast?).map
      KeyDownResult.konamiCode = some [] := by
  subst hhero
  have h := konami_from_any_buffer konamiCode
  refine ⟨by rw [keyDowns_messageShown]; exact h.1, ?_⟩
  have hlast := keyDowns_last true (konamiSequence.drop 1) konamiCode "ArrowUp"
  have hseq : "ArrowUp" :: konamiSequence.drop 1 = konamiSequence := by decide
  rw [hseq] at hlast
  rw [hlast, h.2]

theorem konami_sequence_fires_on_tenth_witness :
    true = true ∧
    (keyDowns true (bufferAfter true [] ["x", "ArrowUp", "b"]) konamiSequence).map
        KeyDownResult.messageShown =
      [false, false, false, false, false, false, false, false, false, true] ∧
    ((keyDowns true (bufferAfter true [] ["x", "ArrowUp", "b"]) konamiSequence).getLast?).map
      KeyDownResult.konamiCode = some [] :=
  ⟨rfl, konami_sequence_fires_on_tenth true (bufferAfter true [] ["x", "ArrowUp", "b"]) rfl⟩

/-- C3, as stated, fails: after eight keys of the target, one key-down whose key
string is "ba" shows the message although the buffer then holds nine entries. -/
theorem konami_nine_entries_fire :
    (onKeyDown true
        (bufferAfter true []
          ["ArrowUp", "ArrowUp", "ArrowDown", "ArrowDown", "ArrowLeft", "ArrowRight",
           "ArrowLeft", "ArrowRight"]) "ba").messageShown = true ∧
    (sliceLast10
        (bufferAfter true []
          ["ArrowUp", "ArrowUp", "ArrowDown", "ArrowDown", "ArrowLeft", "ArrowRight",
           "ArrowLeft", "ArrowRight"] ++ ["ba"])).length = 9 ∧
    sliceLast10
        (bufferAfter true []
          ["ArrowUp", "ArrowUp", "ArrowDown", "ArrowDown", "ArrowLeft", "ArrowRight",
           "ArrowLeft", "ArrowRight"] ++ ["ba"]) ≠ konamiSequence := by
  decide

/-- C3, amended. A key-down shows the message only if the concatenation of the
buffer, after appending the key and keeping the last ten entries, equals the
concatenation of the target sequence; and when every entry of that buffer is a
single character, an arrow key name, or a string that occurs nowhere in the
concatenated target, only if that buffer equals the target entry by entry. -/
theorem konami_fires_only_on_match (heroPresent : Bool) (konamiCode : List String)
    (key : String) (hfire : (onKeyDown heroPresent konamiCode key).messageShown = true) :
    join (sliceLast10 (konamiCode ++ [key])) = join konamiSequence ∧
    ((∀ k ∈ sliceLast10 (konamiCode ++ [key]), plainKey k) →
      sliceLast10 (konamiCode ++ [key]) = konamiSequence) := by
  have hjoin := ((messageShown_iff heroPresent konamiCode key).mp hfire).2
  exact ⟨hjoin, fun hkeys =>
    buffer_eq_of_join_eq _ (sliceLast10_length_le _) hkeys hjoin⟩

theorem konami_fires_only_on_match_witness :
    (onKeyDown true (konamiSequence.take 9) "a").messageShown = true ∧
    (∀ k ∈ sliceLast10 (konamiSequence.take 9 ++ ["a"]), plainKey k) ∧
    join (sliceLast10 (konamiSequence.take 9 ++ ["a"])) = join konamiSequence ∧
    sliceLast10 (konamiSequence.take 9 ++ ["a"]) = konamiSequence :=
  have hkeys : ∀ k ∈ sliceLast10 (konamiSequence.take 9 ++ ["a"]),
      k.length = 1 ∨ k ∈ arrowKeys := by decide
  have hplain : ∀ k ∈ sliceLast10 (konamiSequence.take 9 ++ ["a"]), plainKey k :=
    fun k hk => (hkeys k hk).elim Or.inl (fun h => Or.inr (Or.inl h))
  have h := konami_fires_only_on_match true (konamiSequence.take 9) "a" (by decide)
  ⟨by decide, hplain, h.1, h.2 hplain⟩

/-- C4. When at least one section has `pageYOffset >= offsetTop - 60`, and the last
such section in document order has the id `id`, then after the scroll handler every
navigation link keeps its href and carries the class `active` exactly when its href
is "#" followed by `id`. -/
theorem scrollspy_marks_last_section (sections : List Section) (navLinks : List NavLink)
    (pageYOffset : Int) (last : Section) (id : String)
    (hlast : (sections.filter (qualifies pageYOffset)).getLast? = some last)
    (hid : last.id = some id) :
    List.Forall₂
      (fun before after => after.href = before.href ∧
        ("active" ∈ after.classList ↔ before.href = "#" ++ id))
      navLinks (onScroll sections navLinks pageYOffset) := by
  have h := onScroll_forall₂ sections navLinks pageYOffset
  rw [currentSection_of_last sections pageYOffset last hlast, hid, hashOf_some] at h
  exact h

theorem scrollspy_marks_last_section_witness :
    (demoSections.filter (qualifies 450)).getLast? = some (⟨500, some "features"⟩ : Section) ∧
    (⟨500, some "features"⟩ : Section).id = some "features" ∧
    List.Forall₂
      (fun (before after : NavLink) => after.href = before.href ∧
        ("active" ∈ after.classList ↔ before.href = "#" ++ "features"))
      demoLinks (onScroll demoSections demoLinks 450) :=
  ⟨by decide, rfl,
    scrollspy_marks_last_section demoSections demoLinks 450
      ⟨500, some "features"⟩ "features" (by decide) rfl⟩

/-- C5, as stated, fails: two navigation links with the same href "#a" both carry
`active` after the scroll handler ran over a section with the id "a". -/
theorem two_links_active :
    ((onScroll [⟨0, some "a"⟩] [⟨"#a", []⟩, ⟨"#a", []⟩] 0).filter isActive).length = 2 := by
  decide

/-- C5, amended. After the scroll handler every link that carries `active` has the
same href, "#" followed by the current section id; so when the hrefs of the
navigation links are pairwise distinct, at most one link carries `active`. -/
theorem at_most_one_active_for_distinct_hrefs (sections : List Section)
    (navLinks : List NavLink) (pageYOffset : Int) :
    (∀ link ∈ onScroll sections navLinks pageYOffset, "active" ∈ link.classList →
      link.href = hashOf (currentSection sections pageYOffset)) ∧
    ((navLinks.map NavLink.href).Nodup →
      ((onScroll sections navLinks pageYOffset).filter isActive).length ≤ 1) := by
  constructor
  · intro link hlink hactive
    unfold onScroll at hlink
    obtain ⟨before, _, rfl⟩ := List.mem_map.mp hlink
    rw [highlightLink_href]
    exact (highlightLink_active _ before).mp hactive
  · intro hnodup
    rw [filter_isActive_onScroll]
    exact active_count_le_one _ navLinks hnodup

theorem at_most_one_active_for_distinct_hrefs_witness :
    (demoLinks.map NavLink.href).Nodup ∧
    ((onScroll demoSections demoLinks 450).filter isActive).length ≤ 1 :=
  ⟨by decide,
    (at_most_one_active_for_distinct_hrefs demoSections demoLinks 450).2 (by decide)⟩

/-- C6, as stated, fails: with no section qualifying, a navigation link whose href is
"#" alone (it matches the selector of line 5) carries `active` after the handler. -/
theorem bare_hash_link_active :
    (∀ sec ∈ [(⟨100, some "intro"⟩ : Section)], qualifies 0 sec = false) ∧
    (onScroll [⟨100, some "intro"⟩] [⟨"#", []⟩, ⟨"#intro", []⟩] 0).filter isActive =
      [⟨"#", ["active"]⟩] := by
  decide

/-- C6, amended. When no section has `pageYOffset >= offsetTop - 60`, after the
scroll handler every navigation link keeps its href and carries `active` exactly
when its href is "#" alone; every other link is cleared. -/
theorem no_section_marks_only_bare_hash (sections : List Section)
    (navLinks : List NavLink) (pageYOffset : Int)
    (hnone : ∀ sec ∈ sections, qualifies pageYOffset sec = false) :
    List.Forall₂
      (fun before after => after.href = before.href ∧
        ("active" ∈ after.classList ↔ before.href = "#"))
      navLinks (onScroll sections navLinks pageYOffset) := by
  have h := onScroll_forall₂ sections navLinks pageYOffset
  rw [currentSection_of_none sections pageYOffset hnone, hashOf_empty] at h
  exact h

theorem no_section_marks_only_bare_hash_witness :
    (∀ sec ∈ demoSections, qualifies (-100) sec = false) ∧
    List.Forall₂
      (fun (before after : NavLink) => after.href = before.href ∧
        ("active" ∈ after.classList ↔ before.href = "#"))
      demoLinks (onScroll demoSections demoLinks (-100)) :=
  ⟨by decide, no_section_marks_only_bare_hash demoSections demoLinks (-100) (by decide)⟩

/-- C7, as stated, fails: a click on a link whose href matches no element has
called `preventDefault`. -/
theorem click_without_target_prevents_default :
    demoQuery "#missing" = QueryResult.null ∧
    (navLinkClick demoQuery "#missing").defaultPrevented = true := by
  decide

/-- C7, amended. For every click on a navigation link whose href matches no element
(the lookup returns `null` or rejects the selector), the handler has called
`preventDefault` and issues no scroll request. -/
theorem click_without_target (querySelector : String → QueryResult) (href : String)
    (hmiss : ∀ element, querySelector href ≠ QueryResult.found element) :
    (navLinkClick querySelector href).defaultPrevented = true ∧
    (navLinkClick querySelector href).scrollRequests = [] := by
  cases h : querySelector href with
  | syntaxError => simp [navLinkClick, h]
  | null => simp [navLinkClick, h]
  | found element => exact absurd h (hmiss element)

theorem click_without_target_witness :
    (∀ element, demoQuery "#missing" ≠ QueryResult.found element) ∧
    ((navLinkClick demoQuery "#missing").defaultPrevented = true ∧
    (navLinkClick demoQuery "#missing").scrollRequests = []) :=
  ⟨fun _ h => by simp [demoQuery] at h,
    click_without_target demoQuery "#missing" (fun _ h => by simp [demoQuery] at h)⟩

/-- C8, as stated, fails: the page has an element with the id "1abc", the link has
the href "#1abc"; "#1abc" is not a valid selector (an identifier does not start with
a digit), so the lookup of line 10 throws and no scroll request is issued. -/
theorem click_on_digit_id_issues_no_scroll :
    firstWithId demoDocument "1abc" = some 5 ∧
    navLinkClick (idQuery demoDocument) "#1abc" =
      { defaultPrevented := true, scrollRequests := [], threw := true } := by
  decide

/-- C8, amended. For every click on a navigation link whose href is "#" followed by
a fragment that consists of name code points, is a CSS identifier (not empty, not
starting with a digit, nor with a hyphen followed by a digit or by nothing), and is the
id of an existing element, the handler (with a lookup that follows the Selectors standard)
calls `preventDefault` and issues exactly one `scrollIntoView` request, on the first
element with that id, with behavior "smooth" and block "start"; it does not throw. -/
theorem click_on_identifier_target (doc : Document) (querySelector : String → QueryResult)
    (name : String) (targetElement : Element)
    (hconf : ConformsOnIds doc querySelector)
    (hname : name.data.all isNameChar = true)
    (hident : isIdentifier name.data = true)
    (hfound : firstWithId doc name = some targetElement) :
    navLinkClick querySelector ("#" ++ name) =
      { defaultPrevented := true,
        scrollRequests := [{ target := targetElement, behavior := "smooth", block := "start" }],
        threw := false } := by
  have hq : querySelector ("#" ++ name) = QueryResult.found targetElement := by
    rw [hconf name hname, idSelectorResult, if_pos hident, hfound]
  unfold navLinkClick
  simp only [hq]

theorem click_on_identifier_target_witness :
    ("features".data.all isNameChar = true ∧ isIdentifier "features".data = true ∧
      firstWithId demoDocument "features" = some 7) ∧
    navLinkClick (idQuery demoDocument) ("#" ++ "features") =
      { defaultPrevented := true,
        scrollRequests := [{ target := 7, behavior := "smooth", block := "start" }],
        threw := false } :=
  ⟨⟨by decide, by decide, by decide⟩,
    click_on_identifier_target demoDocument (idQuery demoDocument) "features" 7
      (idQuery_conforms demoDocument) (by decide) (by decide) (by decide)⟩

/-- C9, as stated, fails: on a response with status 500 (not a success status)
`checkAPIStatus` logs nothing at all, so it does not log the failure message. -/
theorem server_error_logs_nothing :
    responseOk 500 = false ∧
    (checkAPIStatus (FetchOutcome.response 500)).consoleLog = [] ∧
    failureMessage ∉ (checkAPIStatus (FetchOutcome.response 500)).consoleLog := by
  decide

/-- C9, amended. For every outcome of the request, `checkAPIStatus` does not throw;
it shows a toast exactly when the outcome is a response with a success status; on a
rejection it logs the failure message and nothing else; on a response without a
success status it logs nothing. -/
theorem health_check_outcomes (outcome : FetchOutcome) :
    (checkAPIStatus outcome).threw = false ∧
    ((checkAPIStatus outcome).toasts ≠ [] ↔
      ∃ status, outcome = FetchOutcome.response status ∧ responseOk status = true) ∧
    (outcome = FetchOutcome.rejected →
      (checkAPIStatus outcome).consoleLog = [failureMessage]) ∧
    (∀ status, outcome = FetchOutcome.response status → responseOk status = false →
      (checkAPIStatus outcome).consoleLog = []) := by
  cases outcome with
  | rejected => simp [checkAPIStatus]
  | response status =>
      by_cases hok : responseOk status = true
      · simp [checkAPIStatus, hok]
      · simp [checkAPIStatus, hok]

theorem health_check_outcomes_witness :
    responseOk 404 = false ∧
    (checkAPIStatus (FetchOutcome.response 404)).threw = false ∧
    (checkAPIStatus (FetchOutcome.response 404)).consoleLog = [] :=
  ⟨by decide, (health_check_outcomes (FetchOutcome.response 404)).1,
    (health_check_outcomes (FetchOutcome.response 404)).2.2.2 404 rfl (by decide)⟩

/-- C10, as stated, fails: a second click succeeds 1000 ms after a first one; 1500 ms
after that second success the label already reads "复制" again, the revert scheduled
by the first click having run. -/
theorem second_click_reverts_early :
    labelAt [0, 1000] 1000 = copiedLabel ∧
    labelAt [0, 1000] 2500 = copyLabel ∧
    copyLabel ≠ copiedLabel := by
  decide

/-- C10, amended. The text passed to the clipboard is the text content of the code
block.  With idealised timers, for every click whose clipboard write succeeds at time
`t`, the label reads "已复制!" at `t`.  When no revert scheduled by an earlier click is
still pending at `t` (every earlier success lies at least 2000 ms back), the label
reads "已复制!" from `t` until just before `t + 2000`, whatever clicks follow, and it
reads "复制" at `t + 2000`, unless another write succeeds at that very instant. -/
theorem copy_label_timing (blockTextContent : String) (successes : List Nat) (t : Nat)
    (hsorted : successes.Pairwise (fun a b => a ≤ b)) (ht : t ∈ successes) :
    copyClickText blockTextContent = blockTextContent ∧
    labelAt successes t = copiedLabel ∧
    ((∀ e ∈ successes, e < t → e + revertDelay ≤ t) →
      (∀ now, t ≤ now → now < t + revertDelay → labelAt successes now = copiedLabel) ∧
      (t + revertDelay ∉ successes → labelAt successes (t + revertDelay) = copyLabel)) :=
  ⟨rfl, labelAt_at_success successes t hsorted ht, fun hquiet =>
    ⟨fun now h1 h2 => labelAt_copied successes t now hsorted ht hquiet h1 h2,
      fun hfree => labelAt_reverted successes t ht hfree⟩⟩

theorem copy_label_timing_witness :
    ([0, 2500, 3000].Pairwise (fun a b => a ≤ b) ∧ 2500 ∈ [0, 2500, 3000] ∧
      (∀ e ∈ [0, 2500, 3000], e < 2500 → e + revertDelay ≤ 2500)) ∧
    copyClickText "npm install" = "npm install" ∧
    labelAt [0, 2500, 3000] 2500 = copiedLabel ∧
    labelAt [0, 2500, 3000] 4499 = copiedLabel ∧
    labelAt [0, 2500, 3000] (2500 + revertDelay) = copyLabel :=
  have h := copy_label_timing "npm install" [0, 2500, 3000] 2500 (by decide) (by decide)
  have hq := h.2.2 (by decide)
  ⟨⟨by decide, by decide, by decide⟩, h.1, h.2.1,
    hq.1 4499 (by decide) (by decide), hq.2 (by decide)⟩

end Coze2JianYing
